import Mathlib

/-!
Verification of the NADO node's consensus and block-production engine
against its natural-language specification.

The Python sources under study are `transaction_ops.py` and
`loops/core_loop.py`.  Accounts live on disk as `accounts/<address>/balance.dat`
records; we model the account store as an association list from addresses to
integer balances, with `get_account` creating a fresh account of balance 0 on
first reference (`create_account(address, balance=0)`).  Fallible Python code
(functions that `raise` / `assert`) is modelled with `Except` or with an
explicit `Option String` error component so that partially applied mutations
are kept, exactly as the mutating Python code leaves them.
-/

namespace Nado

/-- A transaction record, after `create_transaction` has filled every field.
`amount` and `fee` are raw integer units; the remaining fields are opaque
strings serialized from the Python dict. -/
structure Transaction where
  sender : String
  recipient : String
  amount : Int
  timestamp : Int
  data : String
  nonce : String
  fee : Int
  public_key : String
  txid : String
  signature : String
deriving DecidableEq, Repr

/-- The account store: one entry per created account, address to balance.
Mirrors the `accounts/<address>/balance.dat` files. -/
abbrev Balances := List (String × Int)

/-- Balance of `address`: the stored value, or 0 when the account does not
exist yet (`get_account` calls `create_account` with balance 0 on a missing
account, so a lookup never fails and a fresh account reads 0). -/
def getBal : Balances → String → Int
  | [], _ => 0
  | (b, w) :: rest, x => if x = b then w else getBal rest x

/-- Overwrite the stored balance of `address` (creating the account when it
is absent), as the write of `balance.dat` does. -/
def setBal : Balances → String → Int → Balances
  | [], a, v => [(a, v)]
  | (b, w) :: rest, a, v =>
    if a = b then (a, v) :: rest else (b, w) :: setBal rest a v

/-- `transaction_ops.change_balance`: read the account, add `amount`, assert
the result is non-negative, and only then write it back.  On a violated
assertion the function raises `ValueError` and nothing is written. -/
def change_balance (s : Balances) (address : String) (amount : Int) :
    Except String Balances :=
  if 0 ≤ getBal s address + amount then
    Except.ok (setBal s address (getBal s address + amount))
  else
    Except.error "Cannot change balance into negative"

/-- The two balance writes performed by `reflect_transaction(t, revert)`:
debit the sender and credit the recipient, or the reverse when reverting. -/
def reflect_changes (t : Transaction) (revert : Bool) : List (String × Int) :=
  if revert then
    [(t.sender, t.amount), (t.recipient, -t.amount)]
  else
    [(t.sender, -t.amount), (t.recipient, t.amount)]

/-- Run a list of `change_balance` writes in order.  A failing write raises,
so the writes before it stay applied: the result is the state reached so far
together with the error, if any.  This mirrors how the Python mutates the
account files one `change_balance` call at a time. -/
def run_changes (s : Balances) : List (String × Int) → Balances × Option String
  | [] => (s, none)
  | (a, amt) :: rest =>
    match change_balance s a amt with
    | Except.ok s1 => run_changes s1 rest
    | Except.error e => (s, some e)

/-- `transaction_ops.reflect_transaction`: apply (or revert) a transaction's
two balance changes; the first write can persist even when the second
raises. -/
def reflect_transaction (s : Balances) (t : Transaction) (revert : Bool) :
    Balances × Option String :=
  run_changes s (reflect_changes t revert)

/-- The spec's ledger invariant: every stored account balance is
non-negative (a missing account reads as the 0 it would be created with). -/
def allNonneg (s : Balances) : Prop :=
  ∀ x : String, 0 ≤ getBal s x

/-- `transaction_ops.check_balance`: for a single transaction the Python
asserts `balance - amount - fee > 0 <= amount`, i.e. both
`balance - amount - fee > 0` and `0 <= amount`. -/
def check_balance (s : Balances) (account : String) (amount fee : Int) : Bool :=
  decide (getBal s account - amount - fee > 0) && decide (0 ≤ amount)

/-- `transaction_ops.get_senders`: distinct senders of the pool, in order of
first appearance. -/
def get_senders_aux (acc : List String) : List Transaction → List String
  | [] => acc
  | t :: rest =>
    if acc.contains t.sender then get_senders_aux acc rest
    else get_senders_aux (acc ++ [t.sender]) rest

def get_senders (transaction_pool : List Transaction) : List String :=
  get_senders_aux [] transaction_pool

/-- The inner loop of `validate_all_spending` for one sender: walk the pool,
and on every transaction of that sender check `check_balance` and the running
`amount_sum + fee_sum ≤ standing_balance`.  A `false` is a raised
`AssertionError` in the Python. -/
def spending_loop (s : Balances) (sender : String) (standing_balance : Int)
    (amount_sum fee_sum : Int) : List Transaction → Bool
  | [] => true
  | tx :: rest =>
    if tx.sender = sender then
      check_balance s sender tx.amount tx.fee &&
      decide (amount_sum + tx.amount + (fee_sum + tx.fee) ≤ standing_balance) &&
      spending_loop s sender standing_balance (amount_sum + tx.amount)
        (fee_sum + tx.fee) rest
    else
      spending_loop s sender standing_balance amount_sum fee_sum rest

/-- `transaction_ops.validate_all_spending`: run the per-sender loop for each
distinct sender of the pool, against that sender's standing balance. -/
def validate_all_spending (s : Balances) (transaction_pool : List Transaction) :
    Bool :=
  (get_senders transaction_pool).all fun sender =>
    spending_loop s sender (getBal s sender) 0 0 transaction_pool

/-- The condition claimed for `validate_all_spending` by the spec sentence
alone: for each distinct sender, only that the running sum of
`amount + fee` over the sender's transactions stays at or below the standing
balance at every step (no per-transaction `check_balance`). -/
def running_sum_loop (standing_balance spent : Int) : List Transaction → Bool
  | [] => true
  | tx :: rest =>
    decide (spent + tx.amount + tx.fee ≤ standing_balance) &&
    running_sum_loop standing_balance (spent + tx.amount + tx.fee) rest

def claimed_spending_ok (s : Balances) (transaction_pool : List Transaction) :
    Bool :=
  (get_senders transaction_pool).all fun sender =>
    running_sum_loop (getBal s sender) 0
      (transaction_pool.filter fun t => t.sender = sender)

/-- Total `amount + fee` of a list of transactions. -/
def sum_spend (l : List Transaction) : Int :=
  (l.map fun t => t.amount + t.fee).sum

/-- Shorthand for building a plain value transfer in examples. -/
def mkTx (sender recipient : String) (amount fee : Int) : Transaction :=
  { sender := sender, recipient := recipient, amount := amount,
    timestamp := 0, data := "", nonce := "", fee := fee,
    public_key := "", txid := "", signature := "" }

/-- The fields of a transaction before `txid` and `signature` are added:
the message that `create_txid` hashes and that carries the value data. -/
structure TxCore where
  sender : String
  recipient : String
  amount : Int
  timestamp : Int
  data : String
  nonce : String
  fee : Int
  public_key : String
deriving DecidableEq, Repr

def Transaction.core (t : Transaction) : TxCore :=
  { sender := t.sender, recipient := t.recipient, amount := t.amount,
    timestamp := t.timestamp, data := t.data, nonce := t.nonce,
    fee := t.fee, public_key := t.public_key }

/-- The fields of a block other than `block_hash` (and the later-filled
`child_hash`): what the canonical block hash is computed over. -/
structure BlockCore where
  block_number : Nat
  block_timestamp : Int
  parent_hash : String
  block_ip : String
  block_creator : String
  block_transactions : List Transaction
  block_producers_hash : String
  block_reward : Int
deriving DecidableEq, Repr

/-- A block record as stored and exchanged. -/
structure Block where
  block_number : Nat
  block_timestamp : Int
  parent_hash : String
  block_ip : String
  block_creator : String
  block_transactions : List Transaction
  block_producers_hash : String
  block_reward : Int
  block_hash : String
deriving DecidableEq, Repr

def Block.core (b : Block) : BlockCore :=
  { block_number := b.block_number, block_timestamp := b.block_timestamp,
    parent_hash := b.parent_hash, block_ip := b.block_ip,
    block_creator := b.block_creator,
    block_transactions := b.block_transactions,
    block_producers_hash := b.block_producers_hash,
    block_reward := b.block_reward }

/-- Modelled from the spec: the cryptographic primitives
(`address.validate_address`, `address.proof_sender`'s key hash,
`Curve25519.verify`, `hashing.blake2b_hash` and `block_ops.construct_block`'s
block hash) live outside `src/` and the spec treats them as black boxes, so
they are parameters of the development.
`address_of_key pk` is the address derived from a public key (`H(public_key)`);
`verify sig core txid` is signature verification of the canonical
serialization of all transaction fields except `signature`;
`tx_hash` is `create_txid`'s hash of the pre-signed fields;
`block_hash_of` is the canonical hash of a block's hashed fields. -/
structure CryptoModel where
  validate_address : String → Bool
  address_of_key : String → String
  verify : String → TxCore → String → Bool
  tx_hash : TxCore → String
  block_hash_of : BlockCore → String

/-- `address.proof_sender` (modelled from the spec: the address must match
the hash of the public key). -/
def proof_sender (c : CryptoModel) (sender public_key : String) : Bool :=
  c.address_of_key public_key = sender

/-- `transaction_ops.validate_origin`: drop the signature from the record,
check `proof_sender`, then verify the signature against the remaining
serialized fields (which still include `txid`). -/
def validate_origin (c : CryptoModel) (t : Transaction) : Bool :=
  proof_sender c t.sender t.public_key && c.verify t.signature t.core t.txid

/-- `transaction_ops.validate_uniqueness`: true iff no transaction with this
`txid` is indexed on disk (`get_transaction` returns `None`).
`stored_txids` is the set of indexed transaction ids. -/
def validate_uniqueness (stored_txids : List String) (txid : String) : Bool :=
  !(stored_txids.contains txid)

/-- `transaction_ops.validate_transaction`: the sequence of assertions the
Python runs; a `false` is a raised `AssertionError`.  The `isinstance`
checks (record is a dict, fee is an int) hold by typing here. -/
def validate_transaction (c : CryptoModel) (stored_txids : List String)
    (t : Transaction) : Bool :=
  validate_origin c t &&
  c.validate_address t.sender &&
  c.validate_address t.recipient &&
  validate_uniqueness stored_txids t.txid &&
  decide (0 ≤ t.fee)

/-- The acceptance condition the spec sentence claims for
`validate_transaction`, written from the spec's words: everything the code
checks plus `amount ≥ 0` and `txid = H(pre-signed fields)`. -/
def claimed_valid_transaction (c : CryptoModel) (stored_txids : List String)
    (t : Transaction) : Bool :=
  validate_origin c t &&
  c.validate_address t.sender &&
  c.validate_address t.recipient &&
  validate_uniqueness stored_txids t.txid &&
  decide (0 ≤ t.fee) &&
  decide (0 ≤ t.amount) &&
  decide (t.txid = c.tx_hash t.core)

/-- Modelled from the spec: `data_ops.sort_list_dict` is not under `src/`;
the spec treats transaction lists as ordered sets keyed by `txid`
("block_transactions (sorted)", pools as "ordered sets keyed by txid"), so
it is modelled as duplicate removal by `txid` (keeping first occurrences)
followed by a stable insertion sort on `txid`. -/
def dedup_by_txid_aux (seen : List String) : List Transaction → List Transaction
  | [] => []
  | t :: rest =>
    if seen.contains t.txid then dedup_by_txid_aux seen rest
    else t :: dedup_by_txid_aux (seen ++ [t.txid]) rest

def insert_by_txid (t : Transaction) : List Transaction → List Transaction
  | [] => [t]
  | u :: rest =>
    if t.txid ≤ u.txid then t :: u :: rest else u :: insert_by_txid t rest

def sort_list_dict (l : List Transaction) : List Transaction :=
  (dedup_by_txid_aux [] l).foldr insert_by_txid []

/-- The in-memory node state the claims touch: `MemServer`'s account store,
latest block, transaction pools, the transaction index on disk, and the
consensus object's `trust_pool`. -/
structure NodeState where
  balances : Balances
  latest_block : Block
  transaction_pool : List Transaction
  user_tx_buffer : List Transaction
  tx_buffer : List Transaction
  stored_txids : List String
  trust_pool : List (String × Int)
  terminate : Bool
deriving DecidableEq, Repr

/-- `self.consensus.trust_pool[peer] -= delta` on the first stored entry for
`peer`. -/
def sub_trust : List (String × Int) → String → Int → List (String × Int)
  | [], _, _ => []
  | (p, v) :: rest, peer, delta =>
    if p = peer then (p, v - delta) :: rest
    else (p, v) :: sub_trust rest peer delta

def penalize (st : NodeState) (peer : String) (delta : Int) : NodeState :=
  { st with trust_pool := sub_trust st.trust_pool peer delta }

/-- `block_ops.construct_block` (modelled from the spec: it assembles the
record and stamps it with the canonical hash of its fields). -/
def construct_block (c : CryptoModel) (core : BlockCore) : Block :=
  { block_number := core.block_number,
    block_timestamp := core.block_timestamp,
    parent_hash := core.parent_hash,
    block_ip := core.block_ip,
    block_creator := core.block_creator,
    block_transactions := core.block_transactions,
    block_producers_hash := core.block_producers_hash,
    block_reward := core.block_reward,
    block_hash := c.block_hash_of core }

/-- `CoreClient.restructure_remote_block`: rebuild a received block on top of
our current latest block (next number, our latest hash as parent), keeping
its own payload, and recompute the canonical hash. -/
def restructure_remote_block (c : CryptoModel) (latest : Block) (b : Block) :
    Block :=
  construct_block c
    { block_number := latest.block_number + 1,
      block_timestamp := b.block_timestamp,
      parent_hash := latest.block_hash,
      block_ip := b.block_ip,
      block_creator := b.block_creator,
      block_transactions := b.block_transactions,
      block_producers_hash := b.block_producers_hash,
      block_reward := b.block_reward }

/-- `block_ops.valid_block_gap` (modelled from the spec, testable property 8:
true iff the new block's timestamp is at least `gap` seconds after the
previous one's). -/
def valid_block_gap (latest new_block : Block) (gap : Int) : Bool :=
  decide (new_block.block_timestamp - latest.block_timestamp ≥ gap)

/-- The per-transaction half of `CoreClient.validate_transactions_in_block`:
each transaction is first removed from the three in-memory pools, then
validated; a failing transaction raises after the removals, penalising the
remote peer by 25. -/
def validate_txs_loop (c : CryptoModel) (st : NodeState) (remote : Bool)
    (remote_peer : String) : List Transaction → NodeState × Option String
  | [] => (st, none)
  | t :: rest =>
    let st1 : NodeState :=
      { st with transaction_pool := st.transaction_pool.erase t,
                user_tx_buffer := st.user_tx_buffer.erase t,
                tx_buffer := st.tx_buffer.erase t }
    if validate_transaction c st1.stored_txids t then
      validate_txs_loop c st1 remote remote_peer rest
    else
      ((if remote then penalize st1 remote_peer 25 else st1),
       some "Failed to validate transaction during block production")

/-- `CoreClient.validate_transactions_in_block`: the pool-wide spending check
(penalty 100 on failure when remote), then the per-transaction loop. -/
def validate_transactions_in_block (c : CryptoModel) (st : NodeState)
    (block : Block) (remote : Bool) (remote_peer : String) :
    NodeState × Option String :=
  let transactions := sort_list_dict block.block_transactions
  if validate_all_spending st.balances transactions then
    validate_txs_loop c st remote remote_peer transactions
  else
    ((if remote then penalize st remote_peer 100 else st),
     some "Failed to validate spending during block production")

/-- The loop of `CoreClient.incorporate_block` over the block's transactions:
`incorporate_transaction` reflects the transaction's balance changes and
indexes it under the block hash.  A raise keeps the writes made so far. -/
def incorporate_txs (st : NodeState) : List Transaction → NodeState × Option String
  | [] => (st, none)
  | t :: rest =>
    let r := reflect_transaction st.balances t false
    match r.2 with
    | some e => ({ st with balances := r.1 }, some e)
    | none =>
      incorporate_txs
        { st with balances := r.1, stored_txids := st.stored_txids ++ [t.txid] }
        rest

/-- `CoreClient.incorporate_block`: apply every transaction, then credit the
block reward to the creator and install the block as `latest_block`.  Any
failure raises out with the mutations made so far (the caller catches it). -/
def incorporate_block (st : NodeState) (block : Block) :
    NodeState × Option String :=
  match incorporate_txs st (sort_list_dict block.block_transactions) with
  | (st1, some e) => (st1, some e)
  | (st1, none) =>
    match change_balance st1.balances block.block_creator block.block_reward with
    | Except.error e => (st1, some e)
    | Except.ok b2 =>
      ({ st1 with balances := b2, latest_block := block }, none)

/-- `CoreClient.produce_block`: under `buffer_lock`, restructure the block
when it is remote, validate its transactions, check the block gap (a tight
gap only logs, and costs a remote peer 25 trust, but does not abort), then
incorporate.  Every exception is caught inside the lock and merely logged
("Block production skipped due to ..."), and the (restructured) block is
returned regardless. -/
def produce_block (c : CryptoModel) (block_time : Int) (st : NodeState)
    (block0 : Block) (remote : Bool) (remote_peer : String) :
    NodeState × Block :=
  let block := if remote then restructure_remote_block c st.latest_block block0
               else block0
  match validate_transactions_in_block c st block remote remote_peer with
  | (st1, some _) => (st1, block)
  | (st1, none) =>
    let st2 :=
      if !valid_block_gap st1.latest_block block block_time && remote then
        penalize st1 remote_peer 25
      else st1
    match incorporate_block st2 block with
    | (st3, some _) => (st3, block)
    | (st3, none) => (st3, block)

/-- `CoreClient.process_remote_block`: produce the block remotely and assign
whatever `produce_block` returned to `memserver.latest_block`. -/
def process_remote_block (c : CryptoModel) (block_time : Int) (st : NodeState)
    (block : Block) (remote_peer : String) : NodeState :=
  let r := produce_block c block_time st block true remote_peer
  { r.1 with latest_block := r.2 }

/-- The `for block in new_blocks` loop of `CoreClient.emergency_mode`: each
fetched block is processed unless termination was requested; nothing in the
loop stops early, because `produce_block` swallows its own failures. -/
def emergency_apply_blocks (c : CryptoModel) (block_time : Int)
    (remote_peer : String) (st : NodeState) : List Block → NodeState
  | [] => st
  | b :: rest =>
    let st1 := if st.terminate then st
               else process_remote_block c block_time st b remote_peer
    emergency_apply_blocks c block_time remote_peer st1 rest

/-- What `CoreClient.minority_block_consensus` reads: the consensus object's
majority block hash (`none` when Python's falsy "not ready"), the hashes of
the blocks stored on disk (`get_block` succeeds exactly on these), the peer
set, and `latest_block["block_hash"]`. -/
structure ConsensusView where
  majority_block_hash : Option String
  local_block_hashes : List String
  peers : List String
  latest_block_hash : String
deriving DecidableEq, Repr

/-- `block_ops.get_block` succeeds iff the block file is on disk. -/
def get_block (v : ConsensusView) (h : String) : Bool :=
  v.local_block_hashes.contains h

/-- `CoreClient.minority_block_consensus`, branch for branch. -/
def minority_block_consensus (v : ConsensusView) : Bool :=
  match v.majority_block_hash with
  | none => false
  | some mh =>
    if get_block v mh && !v.peers.isEmpty then false
    else if v.latest_block_hash ≠ mh then true
    else false

/-- `CoreClient.update_periods`: the chained strict comparisons of the
Python (`20 > s > 0` is `20 > s and s > 0`); when no branch fires the period
keeps its previous value. -/
def update_periods (block_time : Int) (period : Nat)
    (since_last_block : Int) : Nat :=
  if 20 > since_last_block ∧ since_last_block > 0 then 0
  else if 40 > since_last_block ∧ since_last_block > 20 then 1
  else if block_time > since_last_block ∧ since_last_block > 40 then 2
  else if since_last_block > block_time then 3
  else period

/-- The state read and written by the `elif not known_block` branch of
`CoreClient.emergency_mode`.  `chain_height` abstracts `latest_block`
(`rollback_one_block`, modelled from the spec, reverts the latest block and
points `latest_block` at its parent, one level down); `trust` is
`consensus.trust_pool[peer]` for the chosen peer; `exited` records that the
branch ran `break`. -/
structure RollbackState where
  rollbacks : Nat
  max_rollbacks : Nat
  chain_height : Nat
  trust : Int
  purge_peers_list : List String
  exited : Bool
deriving DecidableEq, Repr

/-- One execution of the `elif not known_block` branch: while the rollback
counter has not passed `max_rollbacks`, roll one block back, count it and
fine the peer 100000; otherwise reset the counter, queue the peer for purge
and leave the loop. -/
def not_known_block_step (peer : String) (st : RollbackState) : RollbackState :=
  if st.rollbacks ≤ st.max_rollbacks then
    { st with chain_height := st.chain_height - 1,
              rollbacks := st.rollbacks + 1,
              trust := st.trust - 100000 }
  else
    { st with rollbacks := 0,
              purge_peers_list := st.purge_peers_list ++ [peer],
              exited := true }

/-- `n` successive executions of the branch (the emergency loop hitting an
unknowing peer every iteration). -/
def iterate_rollbacks (peer : String) : Nat → RollbackState → RollbackState
  | 0, st => st
  | n + 1, st => iterate_rollbacks peer n (not_known_block_step peer st)

/-- The scan of the shuffled pool inside `CoreClient.get_peer_to_sync_from`
for one candidate hash.  The pool is given in its post-shuffle iteration
order; `trust` is `load_trust`, `protocol` the peer's protocol from the
status pool.  Python:
`if avg <= trust and participants > 2 and protocol >= ours: if value == candidate: return peer`
`elif value == candidate: return peer`. -/
def scan_pool (average_trust : Int) (participants : Nat) (our_protocol : Int)
    (trust : String → Int) (protocol : String → Int) (hash_candidate : String) :
    List (String × String) → Option String
  | [] => none
  | (peer, value) :: rest =>
    if average_trust ≤ trust peer ∧ participants > 2 ∧
        protocol peer ≥ our_protocol then
      if value = hash_candidate then some peer
      else scan_pool average_trust participants our_protocol trust protocol
        hash_candidate rest
    else if value = hash_candidate then some peer
    else scan_pool average_trust participants our_protocol trust protocol
      hash_candidate rest

/-- Walk `sorted_hashes` from the most common hash down, scanning the pool
for each; `none` is the "Ran out of options" return. -/
def hashes_loop (average_trust : Int) (participants : Nat) (our_protocol : Int)
    (trust : String → Int) (protocol : String → Int)
    (pool : List (String × String)) : List String → Option String
  | [] => none
  | h :: rest =>
    match scan_pool average_trust participants our_protocol trust protocol
        h pool with
    | some peer => some peer
    | none =>
      hashes_loop average_trust participants our_protocol trust protocol
        pool rest

/-- Modelled from the spec: `data_ops.sort_occurrence` is not under `src/`;
the spec describes it as the distinct opinion values ordered by descending
occurrence count, so it is modelled as a stable insertion sort of the
deduplicated values on their count in the original list. -/
def dedup_keep_first (acc : List String) : List String → List String
  | [] => acc
  | v :: rest =>
    if acc.contains v then dedup_keep_first acc rest
    else dedup_keep_first (acc ++ [v]) rest

def insert_desc (l : List String) (v : String) : List String → List String
  | [] => [v]
  | w :: rest =>
    if l.count v > l.count w then v :: w :: rest
    else w :: insert_desc l v rest

def sort_occurrence (l : List String) : List String :=
  (dedup_keep_first [] l).foldr (insert_desc l) []

/-- `CoreClient.get_peer_to_sync_from`: sort the opinions by occurrence,
count the participants before removing ourselves, drop our own entry, then
loop hash by hash over the (already shuffled) pool.  `hash_pool` is the
pool in its post-shuffle iteration order. -/
def get_peer_to_sync_from (average_trust : Int) (our_protocol : Int)
    (trust : String → Int) (protocol : String → Int) (me : String)
    (hash_pool : List (String × String)) : Option String :=
  let sorted_hashes := sort_occurrence (hash_pool.map Prod.snd)
  let participants := hash_pool.length
  let shuffled_pool := hash_pool.filter fun p => p.1 ≠ me
  hashes_loop average_trust participants our_protocol trust protocol
    shuffled_pool sorted_hashes

/-! Concrete instances used to evaluate the embedded functions at specific
inputs. -/

/-- A concrete instantiation of the cryptographic black boxes, for
evaluating the embedded validation code on explicit records: every address
is accepted, an address is its own key, every signature verifies, and the
hash functions are constant.  The facts proved with it do not depend on the
instantiation, because the code under study never varies in these oracles'
internals. -/
def cexCrypto : CryptoModel :=
  { validate_address := fun _ => true,
    address_of_key := fun pk => pk,
    verify := fun _ _ _ => true,
    tx_hash := fun _ => "H0",
    block_hash_of := fun _ => "B0" }

/-- A transaction with a negative amount and a `txid` different from the
hash of its pre-signed fields, but passing every check
`validate_transaction` actually runs. -/
def cex6_tx : Transaction :=
  { sender := "alice", recipient := "bob", amount := -5, timestamp := 0,
    data := "", nonce := "", fee := 0, public_key := "alice",
    txid := "T0", signature := "sig" }

/-- Latest block of the emergency-mode scenario. -/
def cex7_latest : Block :=
  { block_number := 5, block_timestamp := 100, parent_hash := "P",
    block_ip := "ip0", block_creator := "C0", block_transactions := [],
    block_producers_hash := "BP", block_reward := 0, block_hash := "L5" }

/-- Node state of the emergency-mode scenario: sender "S" owns 10. -/
def cex7_state : NodeState :=
  { balances := [("S", 10)], latest_block := cex7_latest,
    transaction_pool := [], user_tx_buffer := [], tx_buffer := [],
    stored_txids := [], trust_pool := [("p1", 1000)], terminate := false }

/-- A fetched block whose only transaction overspends (100 from a balance of
10), so its validation fails. -/
def cex7_bad : Block :=
  { block_number := 99, block_timestamp := 200, parent_hash := "X",
    block_ip := "ip1", block_creator := "C1",
    block_transactions := [mkTx "S" "R" 100 0],
    block_producers_hash := "BP", block_reward := 3, block_hash := "void" }

/-- A later fetched block with no transactions and reward 7 for "C2"; it
validates and applies cleanly. -/
def cex7_good : Block :=
  { block_number := 100, block_timestamp := 300, parent_hash := "Y",
    block_ip := "ip2", block_creator := "C2", block_transactions := [],
    block_producers_hash := "BP", block_reward := 7, block_hash := "void2" }

/-- Trust scores of the peer-picker scenario: "p1" is untrusted (0), every
other peer holds 100, well above the average. -/
def cex9_trust (p : String) : Int := if p = "p1" then 0 else 100

def cex9_protocol (_ : String) : Int := 1

/-- Four participants, all reporting hash "h"; the untrusted "p1" comes
first in the shuffled iteration order. -/
def cex9_pool : List (String × String) :=
  [("p1", "h"), ("p2", "h"), ("p3", "h"), ("p4", "h")]

/-!
# Theorems

Helper lemmas first, then for each claim C1-C10 its theorem, with
counterexamples and witnesses where the claim needs them.
-/

theorem getBal_setBal (s : Balances) (a : String) (v : Int) (x : String) :
    getBal (setBal s a v) x = if x = a then v else getBal s x := by
  induction s with
  | nil => simp [getBal, setBal]
  | cons p rest ih =>
    obtain ⟨b, w⟩ := p
    by_cases hab : a = b
    · subst hab
      simp only [setBal, if_pos rfl, getBal]
      split <;> simp_all
    · by_cases hxb : x = b
      · subst hxb
        have hxa : x ≠ a := fun h => hab h.symm
        simp [setBal, hab, getBal, hxa]
      · simp [setBal, hab, getBal, hxb, ih]

theorem change_balance_ok_iff (s : Balances) (a : String) (amt : Int) :
    (∃ s', change_balance s a amt = Except.ok s') ↔ 0 ≤ getBal s a + amt := by
  unfold change_balance
  split
  · simp_all
  · simp_all

theorem change_balance_error_iff (s : Balances) (a : String) (amt : Int) :
    (∃ e, change_balance s a amt = Except.error e) ↔ getBal s a + amt < 0 := by
  unfold change_balance
  split
  · rename_i h
    simp only [reduceCtorEq, exists_false, false_iff, not_lt]
    exact h
  · rename_i h
    simp only [Except.error.injEq, exists_eq', true_iff]
    omega

theorem change_balance_ok_getBal (s : Balances) (a : String) (amt : Int)
    (s' : Balances) (h : change_balance s a amt = Except.ok s') (x : String) :
    getBal s' x = if x = a then getBal s a + amt else getBal s x := by
  unfold change_balance at h
  split at h
  · cases h
    exact getBal_setBal s a _ x
  · cases h

theorem change_balance_nonneg (s : Balances) (a : String) (amt : Int)
    (s' : Balances) (hnn : allNonneg s)
    (h : change_balance s a amt = Except.ok s') : allNonneg s' := by
  intro x
  rw [change_balance_ok_getBal s a amt s' h x]
  split
  · have := (change_balance_ok_iff s a amt).mp ⟨s', h⟩
    exact this
  · exact hnn x

theorem run_changes_nonneg (ops : List (String × Int)) :
    ∀ s : Balances, allNonneg s → allNonneg (run_changes s ops).1 := by
  induction ops with
  | nil => intro s h; exact h
  | cons p rest ih =>
    intro s h
    obtain ⟨a, amt⟩ := p
    cases hcb : change_balance s a amt with
    | ok s1 =>
      simpa [run_changes, hcb] using ih s1 (change_balance_nonneg s a amt s1 h hcb)
    | error e =>
      simpa [run_changes, hcb] using h

theorem incorporate_txs_nonneg (l : List Transaction) :
    ∀ st : NodeState, allNonneg st.balances →
      allNonneg (incorporate_txs st l).1.balances := by
  induction l with
  | nil => intro st h; exact h
  | cons t rest ih =>
    intro st h
    have hr : allNonneg (reflect_transaction st.balances t false).1 :=
      run_changes_nonneg _ _ h
    cases hsnd : (reflect_transaction st.balances t false).2 with
    | none => simpa [incorporate_txs, hsnd] using ih _ hr
    | some e => simpa [incorporate_txs, hsnd] using hr

theorem incorporate_block_nonneg (st : NodeState) (b : Block)
    (h : allNonneg st.balances) :
    allNonneg (incorporate_block st b).1.balances := by
  have h1 := incorporate_txs_nonneg (sort_list_dict b.block_transactions) st h
  unfold incorporate_block
  rcases hit : incorporate_txs st (sort_list_dict b.block_transactions)
    with ⟨st1, err⟩
  rw [hit] at h1
  cases err with
  | some e => simpa using h1
  | none =>
    cases hcb : change_balance st1.balances b.block_creator b.block_reward with
    | ok b2 =>
      simpa [hcb] using change_balance_nonneg _ _ _ _ h1 hcb
    | error e => simpa [hcb] using h1

/-- C2.  Every stored account balance stays non-negative: `change_balance`
raises (without writing) exactly when the updated balance would be negative,
so any sequence of balance writes - and in particular `reflect_transaction`
and the balance mutations of block application - preserves "all balances
non-negative".  The quantification over `ops` covers every sequence of
`change_balance` calls, including the partially applied ones a raising
`reflect_transaction` leaves behind. -/
theorem claim2_balance_nonneg_invariant (s : Balances) (hnn : allNonneg s) :
    (∀ (a : String) (amt : Int),
       (∃ e, change_balance s a amt = Except.error e) ↔ getBal s a + amt < 0) ∧
    (∀ ops : List (String × Int), allNonneg (run_changes s ops).1) ∧
    (∀ (t : Transaction) (revert : Bool),
       allNonneg (reflect_transaction s t revert).1) ∧
    (∀ (st : NodeState) (b : Block), st.balances = s →
       allNonneg (incorporate_block st b).1.balances) := by
  refine ⟨fun a amt => change_balance_error_iff s a amt,
          fun ops => run_changes_nonneg ops s hnn,
          fun t revert => run_changes_nonneg _ s hnn,
          fun st b hb => incorporate_block_nonneg st b (hb ▸ hnn)⟩

/-- Witness for C2 at a concrete store: the invariant holds of
`[("alice", 5)]` and is preserved by a concrete pair of writes. -/
theorem claim2_balance_nonneg_invariant_witness :
    allNonneg [("alice", 5)] ∧
    allNonneg (run_changes [("alice", 5)] [("alice", -3), ("bob", 2)]).1 := by
  have hnn : allNonneg [("alice", 5)] := by
    intro x
    simp only [getBal]
    split
    · norm_num
    · norm_num
  exact ⟨hnn, (claim2_balance_nonneg_invariant [("alice", 5)] hnn).2.1
    [("alice", -3), ("bob", 2)]⟩

/-- C10.  When the forward application of a transaction succeeds on a
non-negative store (amounts are non-negative integers by the data model),
the revert succeeds as well and restores every stored balance - the
sender's and recipient's included, also when they coincide. -/
theorem claim10_reflect_roundtrip (s : Balances) (t : Transaction)
    (hnn : allNonneg s) (hamt : 0 ≤ t.amount)
    (hok : (reflect_transaction s t false).2 = none) :
    (reflect_transaction (reflect_transaction s t false).1 t true).2 = none ∧
    ∀ x : String,
      getBal (reflect_transaction (reflect_transaction s t false).1 t true).1 x
        = getBal s x := by
  cases hc1 : change_balance s t.sender (-t.amount) with
  | error e =>
    simp [reflect_transaction, reflect_changes, run_changes, hc1] at hok
  | ok s1 =>
    cases hc2 : change_balance s1 t.recipient t.amount with
    | error e =>
      simp [reflect_transaction, reflect_changes, run_changes, hc1, hc2] at hok
    | ok s2 =>
      have hfwd : reflect_transaction s t false = (s2, none) := by
        simp [reflect_transaction, reflect_changes, run_changes, hc1, hc2]
      have hnn1 : allNonneg s1 := change_balance_nonneg _ _ _ _ hnn hc1
      have hnn2 : allNonneg s2 := change_balance_nonneg _ _ _ _ hnn1 hc2
      have hs1 := change_balance_ok_getBal _ _ _ _ hc1
      have hs2 := change_balance_ok_getBal _ _ _ _ hc2
      have hg3 : 0 ≤ getBal s2 t.sender + t.amount := by
        have := hnn2 t.sender
        omega
      have hc3 : change_balance s2 t.sender t.amount =
          Except.ok (setBal s2 t.sender (getBal s2 t.sender + t.amount)) := by
        unfold change_balance
        rw [if_pos hg3]
      have hs3 := change_balance_ok_getBal _ _ _ _ hc3
      have hg4 : 0 ≤ getBal (setBal s2 t.sender (getBal s2 t.sender + t.amount))
          t.recipient + -t.amount := by
        rw [hs3 t.recipient]
        by_cases hrs : t.recipient = t.sender
        · rw [if_pos hrs]
          have := hnn2 t.sender
          omega
        · rw [if_neg hrs, hs2 t.recipient, if_pos rfl, hs1 t.recipient,
            if_neg hrs]
          have := hnn t.recipient
          omega
      have hc4 : change_balance
          (setBal s2 t.sender (getBal s2 t.sender + t.amount)) t.recipient
          (-t.amount) =
          Except.ok (setBal (setBal s2 t.sender (getBal s2 t.sender + t.amount))
            t.recipient
            (getBal (setBal s2 t.sender (getBal s2 t.sender + t.amount))
              t.recipient + -t.amount)) := by
        unfold change_balance
        rw [if_pos hg4]
      have hrev : reflect_transaction s2 t true =
          (setBal (setBal s2 t.sender (getBal s2 t.sender + t.amount))
            t.recipient
            (getBal (setBal s2 t.sender (getBal s2 t.sender + t.amount))
              t.recipient + -t.amount), none) := by
        simp [reflect_transaction, reflect_changes, run_changes, hc3, hc4]
      rw [hfwd]
      refine ⟨by rw [hrev], fun x => ?_⟩
      rw [hrev]
      simp only
      rw [getBal_setBal]
      by_cases hxr : x = t.recipient
      · rw [if_pos hxr, hs3 t.recipient]
        by_cases hrs : t.recipient = t.sender
        · rw [if_pos hrs, hs2 t.sender, if_pos hrs.symm, hs1 t.recipient,
            if_pos hrs]
          rw [hxr, hrs]
          omega
        · rw [if_neg hrs, hs2 t.recipient, if_pos rfl, hs1 t.recipient,
            if_neg hrs]
          rw [hxr]
          omega
      · rw [if_neg hxr, hs3 x]
        by_cases hxs : x = t.sender
        · rw [if_pos hxs, hs2 t.sender]
          by_cases hsr : t.sender = t.recipient
          · exact absurd (hxs.trans hsr) hxr
          · rw [if_neg hsr, hs1 t.sender, if_pos rfl]
            rw [hxs]
            omega
        · rw [if_neg hxs, hs2 x, if_neg hxr, hs1 x, if_neg hxs]

/-- Witness for C10: sender "a" (balance 9) sends 4 to "b" (balance 1);
forward then revert leaves both balances as they started. -/
theorem claim10_reflect_roundtrip_witness :
    (reflect_transaction
      (reflect_transaction [("a", 9), ("b", 1)] (mkTx "a" "b" 4 0) false).1
      (mkTx "a" "b" 4 0) true).2 = none ∧
    getBal (reflect_transaction
      (reflect_transaction [("a", 9), ("b", 1)] (mkTx "a" "b" 4 0) false).1
      (mkTx "a" "b" 4 0) true).1 "a" = 9 := by
  have hnn : allNonneg [("a", 9), ("b", 1)] := by
    intro x
    simp only [getBal]
    split
    · norm_num
    · split
      · norm_num
      · norm_num
  have h := claim10_reflect_roundtrip [("a", 9), ("b", 1)] (mkTx "a" "b" 4 0)
    hnn (by norm_num [mkTx]) (by decide)
  refine ⟨h.1, ?_⟩
  rw [h.2 "a"]
  decide

theorem sum_spend_nil : sum_spend [] = 0 := rfl

theorem sum_spend_cons (t : Transaction) (l : List Transaction) :
    sum_spend (t :: l) = t.amount + t.fee + sum_spend l := by
  simp [sum_spend]

theorem spending_loop_iff (s : Balances) (sender : String) (bal : Int)
    (pool : List Transaction) :
    ∀ a f : Int,
      spending_loop s sender bal a f pool = true ↔
        ((∀ t ∈ pool.filter (fun t => t.sender = sender),
            check_balance s sender t.amount t.fee = true) ∧
         (∀ n : Nat, n < (pool.filter (fun t => t.sender = sender)).length →
            a + f + sum_spend ((pool.filter (fun t => t.sender = sender)).take
              (n + 1)) ≤ bal)) := by
  induction pool with
  | nil =>
    intro a f
    simp [spending_loop]
  | cons tx rest ih =>
    intro a f
    by_cases h : tx.sender = sender
    · rw [spending_loop, if_pos h]
      have hfilter : (tx :: rest).filter (fun t => t.sender = sender) =
          tx :: rest.filter (fun t => t.sender = sender) := by
        simp [List.filter_cons, h]
      rw [hfilter]
      simp only [Bool.and_eq_true, decide_eq_true_eq, ih (a + tx.amount)
        (f + tx.fee), List.length_cons, List.mem_cons]
      constructor
      · rintro ⟨⟨hc, hsum0⟩, hcr, hsr⟩
        refine ⟨fun t ht => ?_, fun n hn => ?_⟩
        · rcases ht with rfl | ht
          · exact hc
          · exact hcr t ht
        · cases n with
          | zero =>
            simp only [List.take_succ_cons, List.take_zero, sum_spend_cons,
              sum_spend_nil]
            omega
          | succ m =>
            have hm : m < (rest.filter (fun t => t.sender = sender)).length := by
              omega
            have := hsr m hm
            simp only [List.take_succ_cons, sum_spend_cons]
            omega
      · rintro ⟨hcs, hsums⟩
        refine ⟨⟨hcs tx (Or.inl rfl), ?_⟩, fun t ht => hcs t (Or.inr ht),
          fun m hm => ?_⟩
        · have := hsums 0 (by omega)
          simp only [List.take_succ_cons, List.take_zero, sum_spend_cons,
            sum_spend_nil] at this
          omega
        · have := hsums (m + 1) (by omega)
          simp only [List.take_succ_cons, sum_spend_cons] at this
          omega
    · rw [spending_loop, if_neg h]
      have hfilter : (tx :: rest).filter (fun t => t.sender = sender) =
          rest.filter (fun t => t.sender = sender) := by
        simp [List.filter_cons, h]
      rw [hfilter]
      exact ih a f

/-- C1 (amended).  `validate_all_spending` succeeds iff, for each distinct
sender of the pool, every transaction of that sender has a non-negative
amount and `amount + fee` strictly below the sender's standing balance
(`check_balance`), and the running sum of `amount + fee` over that sender's
transactions, in pool order, stays at or below the standing balance at every
step.  In particular the pool of 40 and 20 against a balance of 50 is
rejected. -/
theorem claim1_spending_characterization :
    (∀ (s : Balances) (pool : List Transaction),
      validate_all_spending s pool = true ↔
        ∀ sender ∈ get_senders pool,
          (∀ t ∈ pool.filter (fun t => t.sender = sender),
             0 ≤ t.amount ∧ getBal s sender - t.amount - t.fee > 0) ∧
          (∀ n : Nat, n < (pool.filter (fun t => t.sender = sender)).length →
             sum_spend ((pool.filter (fun t => t.sender = sender)).take (n + 1))
               ≤ getBal s sender)) ∧
    validate_all_spending [("S", 50)] [mkTx "S" "R" 40 0, mkTx "S" "R" 20 0]
      = false := by
  constructor
  · intro s pool
    unfold validate_all_spending
    rw [List.all_eq_true]
    constructor
    · intro h sender hs
      obtain ⟨hc, hsum⟩ :=
        (spending_loop_iff s sender (getBal s sender) pool 0 0).mp (h sender hs)
      refine ⟨fun t ht => ?_, fun n hn => ?_⟩
      · have := hc t ht
        simp only [check_balance, Bool.and_eq_true, decide_eq_true_eq] at this
        exact ⟨this.2, this.1⟩
      · have := hsum n hn
        omega
    · intro h sender hs
      apply (spending_loop_iff s sender (getBal s sender) pool 0 0).mpr
      obtain ⟨h1, h2⟩ := h sender hs
      refine ⟨fun t ht => ?_, fun n hn => ?_⟩
      · simp only [check_balance, Bool.and_eq_true, decide_eq_true_eq]
        exact ⟨(h1 t ht).2, (h1 t ht).1⟩
      · have := h2 n hn
        omega
  · decide

/-- Counterexample to C1 as stated: with a balance of 50 and a single
transaction of amount 50 (fee 0), the running sum stays at or below the
balance at every step - the spec sentence's condition holds - yet
`validate_all_spending` rejects, because `check_balance` demands
`balance - amount - fee > 0` strictly. -/
theorem claim1_counterexample :
    claimed_spending_ok [("S", 50)] [mkTx "S" "R" 50 0] = true ∧
    validate_all_spending [("S", 50)] [mkTx "S" "R" 50 0] = false := by
  decide

/-- C3.  `minority_block_consensus` returns false when the majority block
hash is undefined; false when the majority block is stored locally and the
peer set is non-empty; and true when neither of those holds and our latest
block hash differs from the majority hash. -/
theorem claim3_minority_block_consensus (v : ConsensusView) :
    (v.majority_block_hash = none → minority_block_consensus v = false) ∧
    (∀ mh, v.majority_block_hash = some mh → get_block v mh = true →
       v.peers ≠ [] → minority_block_consensus v = false) ∧
    (∀ mh, v.majority_block_hash = some mh →
       ¬(get_block v mh = true ∧ v.peers ≠ []) →
       v.latest_block_hash ≠ mh → minority_block_consensus v = true) := by
  refine ⟨fun h => ?_, fun mh hmh hknown hpeers => ?_, fun mh hmh hnot hdiff => ?_⟩
  · simp [minority_block_consensus, h]
  · have hne : v.peers.isEmpty = false := by
      cases hp : v.peers with
      | nil => exact absurd hp hpeers
      | cons a l => simp
    simp [minority_block_consensus, hmh, hknown, hne]
  · have hcond : (get_block v mh && !v.peers.isEmpty) = false := by
      by_cases hk : get_block v mh = true
      · by_cases hp : v.peers = []
        · simp [hp]
        · exact absurd ⟨hk, hp⟩ hnot
      · simp only [Bool.not_eq_true] at hk
        simp [hk]
    simp [minority_block_consensus, hmh, hcond, hdiff]

/-- Witness for C3: majority hash "m" unknown locally, no peer overlap,
differing latest hash - the node is declared out of consensus. -/
theorem claim3_minority_block_consensus_witness :
    minority_block_consensus
      { majority_block_hash := some "m", local_block_hashes := ["g"],
        peers := ["1.2.3.4"], latest_block_hash := "g" } = true := by
  have h := (claim3_minority_block_consensus
    { majority_block_hash := some "m", local_block_hashes := ["g"],
      peers := ["1.2.3.4"], latest_block_hash := "g" }).2.2 "m" rfl
    (by decide) (by decide)
  exact h

/-- C4.  In the `elif not known_block` branch of emergency mode: while the
rollback counter has not exceeded `max_rollbacks` the node rolls one block
back, increments the counter and fines the peer exactly 100000; once the
counter exceeds `max_rollbacks` it resets the counter, queues the peer for
purge and breaks out without rolling back.  With `max_rollbacks = 3` and the
counter starting at 0, four iterations each roll back one block, and the
fifth iteration exits: exactly four rollbacks happen before exhaustion. -/
theorem claim4_rollback_budget (peer : String) (st : RollbackState) :
    (st.rollbacks ≤ st.max_rollbacks →
       not_known_block_step peer st =
         { st with chain_height := st.chain_height - 1,
                   rollbacks := st.rollbacks + 1,
                   trust := st.trust - 100000 }) ∧
    (st.rollbacks > st.max_rollbacks →
       not_known_block_step peer st =
         { st with rollbacks := 0,
                   purge_peers_list := st.purge_peers_list ++ [peer],
                   exited := true }) ∧
    (iterate_rollbacks peer 4
        { rollbacks := 0, max_rollbacks := 3, chain_height := st.chain_height,
          trust := st.trust, purge_peers_list := [], exited := false } =
       { rollbacks := 4, max_rollbacks := 3,
         chain_height := st.chain_height - 4, trust := st.trust - 400000,
         purge_peers_list := [], exited := false } ∧
     not_known_block_step peer
        { rollbacks := 4, max_rollbacks := 3,
          chain_height := st.chain_height - 4, trust := st.trust - 400000,
          purge_peers_list := [], exited := false } =
       { rollbacks := 0, max_rollbacks := 3,
         chain_height := st.chain_height - 4, trust := st.trust - 400000,
         purge_peers_list := [peer], exited := true }) := by
  refine ⟨fun h => ?_, fun h => ?_, ?_, ?_⟩
  · rw [not_known_block_step, if_pos h]
  · rw [not_known_block_step, if_neg (by omega)]
  · simp only [iterate_rollbacks, not_known_block_step]
    norm_num
    constructor
    · omega
    · omega
  · rw [not_known_block_step, if_neg (by norm_num)]
    rfl

/-- Witness for C4: a node that has rolled back 3 times out of 3 still rolls
back once more (the fourth), and from height 10 lands at height 9 on the
first rollback. -/
theorem claim4_rollback_budget_witness :
    not_known_block_step "peer"
      { rollbacks := 3, max_rollbacks := 3, chain_height := 7,
        trust := 0, purge_peers_list := [], exited := false } =
      { rollbacks := 4, max_rollbacks := 3, chain_height := 6,
        trust := -100000, purge_peers_list := [], exited := false } := by
  have h := (claim4_rollback_budget "peer"
    { rollbacks := 3, max_rollbacks := 3, chain_height := 7,
      trust := 0, purge_peers_list := [], exited := false }).1 (by norm_num)
  simpa using h

/-- C5 (code divergence).  At the exact period boundaries the strict chained
comparisons of `update_periods` leave the period at its previous value:
with `block_time = 60`, `s = 0` keeps a prior period 3 (the claim says 0),
`s = 20` keeps 0 (claim says 1), `s = 40` keeps 1 (claim says 2) and
`s = 60 = block_time` keeps 2 (claim says 3). -/
theorem claim5_update_periods_boundaries :
    update_periods 60 3 0 = 3 ∧ update_periods 60 0 20 = 0 ∧
    update_periods 60 1 40 = 1 ∧ update_periods 60 2 60 = 2 := by
  decide

/-- C6 (amended).  `validate_transaction` accepts a record iff its origin
proof and signature verify, both addresses validate, its txid is not already
stored and its fee is a non-negative integer; it checks neither the sign of
`amount` nor that `txid` matches the hash of the pre-signed fields. -/
theorem claim6_validate_transaction_iff (c : CryptoModel)
    (stored_txids : List String) (t : Transaction) :
    validate_transaction c stored_txids t = true ↔
      (validate_origin c t = true ∧ c.validate_address t.sender = true ∧
       c.validate_address t.recipient = true ∧ t.txid ∉ stored_txids ∧
       0 ≤ t.fee) := by
  simp [validate_transaction, validate_uniqueness, and_assoc]

/-- Counterexample to C6 as stated: a record with `amount = -5` and a txid
that is not the hash of its pre-signed fields still passes
`validate_transaction`, refuting the claimed "if and only if". -/
theorem claim6_counterexample :
    validate_transaction cexCrypto [] cex6_tx = true ∧
    claimed_valid_transaction cexCrypto [] cex6_tx = false := by
  decide

theorem validate_txs_loop_balances (c : CryptoModel) (remote : Bool)
    (peer : String) : ∀ (l : List Transaction) (st : NodeState),
    (validate_txs_loop c st remote peer l).1.balances = st.balances := by
  intro l
  induction l with
  | nil => intro st; rfl
  | cons t rest ih =>
    intro st
    simp only [validate_txs_loop]
    split
    · exact ih _
    · split <;> rfl

theorem validate_block_balances (c : CryptoModel) (st : NodeState)
    (block : Block) (remote : Bool) (peer : String) :
    (validate_transactions_in_block c st block remote peer).1.balances
      = st.balances := by
  by_cases hval : validate_all_spending st.balances
      (sort_list_dict block.block_transactions) = true
  · simp only [validate_transactions_in_block, hval, if_true]
    exact validate_txs_loop_balances c remote peer _ st
  · simp only [validate_transactions_in_block, hval, if_false]
    cases remote <;> rfl

/-- C8.  `produce_block` with `remote=True` always returns the restructured
block - its internal `try` catches every validation or incorporation
failure - and `process_remote_block` assigns that return value to
`memserver.latest_block`.  When validation of the restructured block fails,
no balance was touched, so the in-memory latest block is then a block that
was never applied. -/
theorem claim8_failed_remote_block (c : CryptoModel) (block_time : Int)
    (st : NodeState) (b : Block) (peer : String) :
    (produce_block c block_time st b true peer).2
        = restructure_remote_block c st.latest_block b ∧
    (process_remote_block c block_time st b peer).latest_block
        = restructure_remote_block c st.latest_block b ∧
    ((validate_transactions_in_block c st
        (restructure_remote_block c st.latest_block b) true peer).2.isSome
          = true →
      (process_remote_block c block_time st b peer).balances
        = st.balances) := by
  have hbal := validate_block_balances c st
    (restructure_remote_block c st.latest_block b) true peer
  rcases hv : validate_transactions_in_block c st
      (restructure_remote_block c st.latest_block b) true peer with ⟨st1, err⟩
  rw [hv] at hbal
  have hprod : (produce_block c block_time st b true peer).2
      = restructure_remote_block c st.latest_block b := by
    cases err with
    | some e => simp [produce_block, hv]
    | none =>
      simp only [produce_block, hv, if_true]
      split <;> rfl
  refine ⟨hprod, by simpa [process_remote_block] using hprod, fun hso => ?_⟩
  cases err with
  | some e =>
    simp only [process_remote_block, produce_block, hv, if_true]
    simpa using hbal
  | none =>
    simp at hso

/-- Witness for C8 at the concrete scenario: the overspending remote block
fails validation, yet `produce_block` hands its restructured form back and
the store is untouched. -/
theorem claim8_failed_remote_block_witness :
    (produce_block cexCrypto 60 cex7_state cex7_bad true "p1").2
      = restructure_remote_block cexCrypto cex7_state.latest_block cex7_bad ∧
    (process_remote_block cexCrypto 60 cex7_state cex7_bad "p1").balances
      = cex7_state.balances := by
  have h := claim8_failed_remote_block cexCrypto 60 cex7_state cex7_bad "p1"
  exact ⟨h.1, h.2.2 (by decide)⟩

/-- C7 (code divergence).  In the emergency catch-up loop, a block whose
validation fails does not stop the sync attempt: with the fetched sequence
`[cex7_bad, cex7_good]`, the first block's validation fails, yet the second
is still validated and applied - the final latest block is its restructured
form (number 7 on top of latest number 5) and its reward of 7 is credited
to "C2". -/
theorem claim7_sync_continues_after_failure :
    (validate_transactions_in_block cexCrypto cex7_state
        (restructure_remote_block cexCrypto cex7_state.latest_block cex7_bad)
        true "p1").2.isSome = true ∧
    (emergency_apply_blocks cexCrypto 60 "p1" cex7_state
        [cex7_bad, cex7_good]).latest_block.block_number = 7 ∧
    getBal (emergency_apply_blocks cexCrypto 60 "p1" cex7_state
        [cex7_bad, cex7_good]).balances "C2" = 7 := by
  decide

/-- C9 (code divergence).  The trusted-peer picker returns the first peer in
shuffled order holding the candidate hash even when that peer is untrusted
and a fully qualifying peer (trust at least the average, more than two
participants, adequate protocol) also holds the hash: the `elif` of the
Python fires per peer, not only after the trusted scan is exhausted. -/
theorem claim9_picker_ignores_trust :
    get_peer_to_sync_from 50 1 cex9_trust cex9_protocol "me" cex9_pool
      = some "p1" ∧
    cex9_trust "p1" < 50 ∧ 50 ≤ cex9_trust "p2" ∧
    cex9_pool.length > 2 ∧ cex9_protocol "p2" ≥ 1 ∧
    ("p2", "h") ∈ cex9_pool := by
  decide

end Nado

